import Mathlib

/-!
Shallow embedding of the serial-monitor message item module
(`src/types/index.ts` together with the `MessageItem` component):
the `highlightLineEndings` string transform, the `SerialMessage` data
model and the component handlers `handleClick` (resend) and
`handleCopy` (clipboard). Strings are modelled as `List Char`; the
React output of the highlighter is modelled as a list of parts, each
either plain text or a highlighted span.
-/

set_option autoImplicit false

namespace SerialMonitor

/-- The `DataFormat` union type: six textual encodings. -/
inductive DataFormat where
  | hex
  | binary
  | ascii
  | decimal
  | utf8
  | base64
  deriving DecidableEq

/-- The `LineEnding` union type. -/
inductive LineEnding where
  | none
  | cr
  | lf
  | crlf
  | custom
  deriving DecidableEq

/-- `SerialConnectionConfig`: connection configuration record. -/
structure SerialConnectionConfig where
  baudRate : Nat
  lineEnding : LineEnding
  customLineEnding : Option (List Char)
  readUntilLineEnding : Option Bool
  readLineEnding : Option LineEnding
  readCustomLineEnding : Option (List Char)
  deriving DecidableEq

/-- Message direction: the `'sent' | 'received'` union. -/
inductive MsgType where
  | sent
  | received
  deriving DecidableEq

/-- `SerialMessage`: one logged message. `data` models the `Uint8Array`
of raw bytes, `timestamp` models the `Date` as an epoch number. -/
structure SerialMessage where
  id : List Char
  type : MsgType
  data : List Nat
  timestamp : Nat
  format : DataFormat
  displayText : List Char
  originalData : Option (List Char)
  deriving DecidableEq

/-- JavaScript `\s` (the regex whitespace class), as matched by
`text.split(/(\s+)/)` in the hex branch of `highlightLineEndings`. -/
def jsIsSpace (c : Char) : Bool :=
  c = ' ' || c = '\t' || c = '\n' || c = '\x0b' || c = '\x0c' || c = '\r' ||
  c = '\u00A0' || c = '\u1680' || ('\u2000' ≤ c && c ≤ '\u200A') ||
  c = '\u2028' || c = '\u2029' || c = '\u202F' || c = '\u205F' ||
  c = '\u3000' || c = '\uFEFF'

/-- Worker for `splitKeepSep`: `cur` is the current chunk (reversed),
`curSep` says whether the current chunk is a whitespace run. JavaScript
`split` with a captured separator alternates tokens and separators,
with a (possibly empty) token first and last. -/
def splitAux : List Char → Bool → List Char → List (List Char)
  | cur, curSep, [] => if curSep then [cur.reverse, []] else [cur.reverse]
  | cur, curSep, c :: cs =>
    if jsIsSpace c = curSep then splitAux (c :: cur) curSep cs
    else cur.reverse :: splitAux [c] (jsIsSpace c) cs

/-- `text.split(/(\s+)/)`: split on maximal whitespace runs, keeping
the separators in the result. -/
def splitKeepSep (text : List Char) : List (List Char) :=
  splitAux [] false text

/-- One element of the rendered output: plain text, or a highlighted
span carrying its rendered text and the CR flag used for styling. -/
inductive Part where
  | plain (s : List Char)
  | highlighted (s : List Char) (isCR : Bool)
  deriving DecidableEq

/-- The rendered text a part displays. -/
def Part.content : Part → List Char
  | Part.plain s => s
  | Part.highlighted s _ => s

/-- Whether a part is a highlighted span. -/
def Part.isHighlighted : Part → Bool
  | Part.plain _ => false
  | Part.highlighted _ _ => true

/-- The source characters a part of the ASCII/UTF-8 branch stands for:
a plain part stands for its own text, a highlighted span stands for the
single CR or LF character it replaced. -/
def Part.origChars : Part → List Char
  | Part.plain s => s
  | Part.highlighted _ isCR => [if isCR then '\r' else '\n']

/-- Result of `highlightLineEndings`: a list of parts, or the raw input
string returned as-is. -/
inductive HLResult where
  | parts (ps : List Part)
  | raw (s : List Char)
  deriving DecidableEq

/-- The per-word step of the hex branch: uppercase the word, highlight
it when it equals `0D` or `0A`, keep it plain otherwise. The span keeps
the word in its original casing. -/
def hexPart (w : List Char) : Part :=
  let upper := w.map Char.toUpper
  if upper = ['0', 'D'] ∨ upper = ['0', 'A'] then
    Part.highlighted w (upper = ['0', 'D'])
  else
    Part.plain w

/-- `c === '\r' || c === '\n'`. -/
def isCRLF (c : Char) : Bool := c = '\r' || c = '\n'

/-- Worker for the ASCII/UTF-8 branch: `pending` is the reversed run of
characters since `lastIndex`. On a CR or LF, flush the pending run as a
plain part and emit a highlighted span whose text is the two-character
escape; at the end, flush the remaining run. -/
def asciiLoop : List Char → List Char → List Part
  | pending, [] => if pending = [] then [] else [Part.plain pending.reverse]
  | pending, c :: cs =>
    if isCRLF c then
      (if pending = [] then [] else [Part.plain pending.reverse]) ++
        Part.highlighted (if c = '\r' then ['\\', 'r'] else ['\\', 'n']) (c = '\r') ::
          asciiLoop [] cs
    else
      asciiLoop (c :: pending) cs

/-- Parts produced by the ASCII/UTF-8 branch of `highlightLineEndings`. -/
def asciiParts (text : List Char) : List Part :=
  asciiLoop [] text

/-- `highlightLineEndings(text, format)` from the `MessageItem` module. -/
def highlightLineEndings (text : List Char) (format : DataFormat) : HLResult :=
  if format = DataFormat.hex then
    let parts := (splitKeepSep text).map hexPart
    if parts.length > 0 then HLResult.parts parts else HLResult.raw text
  else if format = DataFormat.ascii ∨ format = DataFormat.utf8 then
    let parts := asciiParts text
    if parts.length > 0 then HLResult.parts parts else HLResult.raw text
  else
    HLResult.raw text

/-- The outside world as the component handlers can touch it: the
message object held by the props, the console log (entries are a
message/error pair), the clipboard, and the list of `onResend`
invocations with their arguments. -/
structure World where
  message : SerialMessage
  log : List (List Char × List Char)
  clipboard : Option (List Char)
  resendCalls : List (List Char × DataFormat × SerialConnectionConfig)
  deriving DecidableEq

/-- The `MessageItemProps` other than the message itself: `onResend`
is modelled by whether the callback prop is present. -/
structure MessageItemProps where
  onResend : Bool
  isConnected : Option Bool
  currentConfig : Option SerialConnectionConfig
  displayFormat : Option DataFormat
  deriving DecidableEq

/-- JavaScript truthiness of an optional string: present and nonempty. -/
def strTruthy : Option (List Char) → Bool
  | Option.some s => !s.isEmpty
  | Option.none => false

/-- JavaScript truthiness of an optional boolean. -/
def boolTruthy : Option Bool → Bool
  | Option.some b => b
  | Option.none => false

/-- `formatToUse = displayFormat || message.format` (a `DataFormat`
string is always truthy when present). -/
def formatToUse (displayFormat : Option DataFormat) (message : SerialMessage) : DataFormat :=
  match displayFormat with
  | Option.some f => f
  | Option.none => message.format

/-- `canResend = isSent && isConnected && message.originalData &&
onResend && currentConfig`. -/
def canResend (p : MessageItemProps) (message : SerialMessage) : Bool :=
  (message.type = MsgType.sent) && boolTruthy p.isConnected &&
    strTruthy message.originalData && p.onResend && p.currentConfig.isSome

/-- `handleClick`: when `canResend && message.originalData && onResend
&& currentConfig`, call `onResend(message.originalData, message.format,
currentConfig)`; the call is recorded in the world. -/
def handleClick (p : MessageItemProps) (w : World) : World :=
  if canResend p w.message && strTruthy w.message.originalData && p.onResend &&
      p.currentConfig.isSome then
    match w.message.originalData, p.currentConfig with
    | Option.some od, Option.some cfg =>
      { w with resendCalls := w.resendCalls ++ [(od, w.message.format, cfg)] }
    | _, _ => w
  else w

/-- `handleCopy`: try to write `displayText` to the clipboard; the
outcome of the write is `writeOutcome`. On failure, log the error via
`console.error` and swallow it. The second component is what the
handler itself returns to its caller. -/
def handleCopy (displayText : List Char) (writeOutcome : Except (List Char) Unit)
    (w : World) : World × Except (List Char) Unit :=
  match writeOutcome with
  | Except.ok _ => ({ w with clipboard := Option.some displayText }, Except.ok ())
  | Except.error err =>
    ({ w with log := w.log ++ [(("[MessageHistory] Failed to copy:").toList, err)] },
      Except.ok ())

/-- Boolean invariant of a part emitted by the ASCII/UTF-8 branch: a
plain part holds no CR/LF character, a highlighted span's text is the
matching two-character escape. -/
def goodAsciiPart : Part → Bool
  | Part.plain s => s.all (fun c => !(isCRLF c))
  | Part.highlighted s isCR => s = (if isCR then ['\\', 'r'] else ['\\', 'n'])

/-- Boolean shape of a split result: chunks alternate between
non-whitespace tokens and whitespace runs, starting with a token. -/
def splitShape : Bool → List (List Char) → Bool
  | _, [] => true
  | isSep, w :: ws => w.all (fun c => jsIsSpace c = isSep) && splitShape (!isSep) ws

theorem splitAux_join (cs : List Char) : ∀ cur curSep,
    (splitAux cur curSep cs).flatten = cur.reverse ++ cs := by
  induction cs with
  | nil =>
    intro cur curSep
    cases curSep <;> simp [splitAux]
  | cons c cs ih =>
    intro cur curSep
    by_cases h : jsIsSpace c = curSep
    · simp [splitAux, h, ih]
    · simp [splitAux, h, ih]

theorem splitAux_ne_nil (cs : List Char) : ∀ cur curSep,
    splitAux cur curSep cs ≠ [] := by
  induction cs with
  | nil =>
    intro cur curSep
    cases curSep <;> simp [splitAux]
  | cons c cs ih =>
    intro cur curSep
    by_cases h : jsIsSpace c = curSep
    · simpa [splitAux, h] using ih (c :: cur) curSep
    · simp [splitAux, h]

theorem splitAux_shape (cs : List Char) : ∀ cur curSep,
    cur.all (fun c => jsIsSpace c = curSep) = true →
    splitShape curSep (splitAux cur curSep cs) = true := by
  induction cs with
  | nil =>
    intro cur curSep hcur
    cases curSep <;> simp [splitAux, splitShape, List.all_reverse, hcur] <;>
      simpa [List.all_eq_true] using hcur
  | cons c cs ih =>
    intro cur curSep hcur
    by_cases h : jsIsSpace c = curSep
    · have hall : (c :: cur).all (fun x => jsIsSpace x = curSep) = true := by
        simp only [List.all_cons, Bool.and_eq_true, decide_eq_true_eq]
        exact ⟨h, by simpa [List.all_eq_true] using hcur⟩
      simpa [splitAux, h] using ih (c :: cur) curSep hall
    · have hne : jsIsSpace c = !curSep := by
        cases hcs : jsIsSpace c <;> cases hcss : curSep
        · exact absurd (hcs.trans hcss.symm) h
        · rfl
        · rfl
        · exact absurd (hcs.trans hcss.symm) h
      have hrec := ih [c] (!curSep) (by simp [List.all_cons, hne])
      simp only [splitAux, if_neg h, splitShape, Bool.and_eq_true, List.all_reverse]
      rw [hne]
      exact ⟨hcur, hrec⟩

theorem splitKeepSep_join (text : List Char) :
    (splitKeepSep text).flatten = text := by
  simpa using splitAux_join text [] false

theorem splitKeepSep_ne_nil (text : List Char) : splitKeepSep text ≠ [] :=
  splitAux_ne_nil text [] false

theorem splitKeepSep_shape (text : List Char) :
    splitShape false (splitKeepSep text) = true :=
  splitAux_shape text [] false (by simp)

theorem hexPart_content (w : List Char) : (hexPart w).content = w := by
  simp only [hexPart]
  split <;> rfl

theorem hexPart_eq (w : List Char) :
    hexPart w = (if w.map Char.toUpper = ['0', 'D'] then Part.highlighted w true
      else if w.map Char.toUpper = ['0', 'A'] then Part.highlighted w false
      else Part.plain w) := by
  simp only [hexPart]
  by_cases hD : w.map Char.toUpper = ['0', 'D']
  · simp [hD]
  · by_cases hA : w.map Char.toUpper = ['0', 'A'] <;> simp [hD, hA]

theorem hexPart_isHighlighted_congr (w v : List Char)
    (h : w.map Char.toUpper = v.map Char.toUpper) :
    (hexPart w).isHighlighted = (hexPart v).isHighlighted := by
  by_cases hc : v.map Char.toUpper = ['0', 'D'] ∨ v.map Char.toUpper = ['0', 'A'] <;>
    simp [hexPart, h, hc, Part.isHighlighted]

theorem hle_hex (text : List Char) :
    highlightLineEndings text DataFormat.hex =
      HLResult.parts ((splitKeepSep text).map hexPart) := by
  have h : splitKeepSep text ≠ [] := splitKeepSep_ne_nil text
  simp [highlightLineEndings, List.length_pos, List.map_eq_nil_iff, h]

theorem asciiLoop_origChars (cs : List Char) : ∀ pending,
    ((asciiLoop pending cs).map Part.origChars).flatten = pending.reverse ++ cs := by
  induction cs with
  | nil =>
    intro pending
    by_cases hp : pending = [] <;> simp [asciiLoop, hp, Part.origChars]
  | cons c cs ih =>
    intro pending
    by_cases hc : isCRLF c = true
    · have hcc : (if c = '\r' then '\r' else '\n') = c := by
        by_cases hr : c = '\r'
        · simp [hr]
        · simp only [isCRLF, hr, Bool.or_eq_true, decide_eq_true_eq, false_or] at hc
          simp [hr, hc]
      by_cases hp : pending = [] <;>
        simp [asciiLoop, hc, hp, ih, Part.origChars, hcc]
    · have hc' : isCRLF c = false := by simpa using hc
      simpa [asciiLoop, hc'] using ih (c :: pending)

theorem asciiLoop_good (cs : List Char) : ∀ pending,
    (∀ c ∈ pending, isCRLF c = false) →
    (asciiLoop pending cs).all goodAsciiPart = true := by
  induction cs with
  | nil =>
    intro pending hp
    by_cases h0 : pending = []
    · simp [asciiLoop, h0]
    · have hstep : asciiLoop pending [] = [Part.plain pending.reverse] := by
        simp [asciiLoop, h0]
      rw [hstep]
      simp only [List.all_cons, List.all_nil, Bool.and_true, goodAsciiPart,
        List.all_reverse, List.all_eq_true, Bool.not_eq_true']
      exact hp
  | cons c cs ih =>
    intro pending hp
    by_cases hc : isCRLF c = true
    · have hgood : goodAsciiPart
          (Part.highlighted (if c = '\r' then ['\\', 'r'] else ['\\', 'n']) (c = '\r')) = true := by
        by_cases hr : c = '\r' <;> simp [goodAsciiPart, hr]
      have htail := ih [] (by intro x hx; cases hx)
      have hpend : pending.reverse.all (fun x => !(isCRLF x)) = true := by
        simp only [List.all_reverse, List.all_eq_true, Bool.not_eq_true']
        exact hp
      by_cases h0 : pending = [] <;>
        simp [asciiLoop, hc, h0, hgood, htail, goodAsciiPart, hpend]
    · have hc' : isCRLF c = false := by simpa using hc
      have hpend : ∀ x ∈ c :: pending, isCRLF x = false := by
        intro x hx
        rcases List.mem_cons.mp hx with rfl | hx2
        · exact hc'
        · exact hp x hx2
      simpa [asciiLoop, hc'] using ih (c :: pending) hpend

theorem asciiLoop_ne_nil (cs : List Char) : ∀ pending,
    pending ≠ [] ∨ cs ≠ [] → asciiLoop pending cs ≠ [] := by
  induction cs with
  | nil =>
    intro pending h
    rcases h with h | h
    · simp [asciiLoop, h]
    · simp at h
  | cons c cs ih =>
    intro pending h
    by_cases hc : isCRLF c = true
    · by_cases h0 : pending = [] <;> simp [asciiLoop, hc, h0]
    · have hc' : isCRLF c = false := by simpa using hc
      have := ih (c :: pending) (Or.inl (by simp))
      simpa [asciiLoop, hc'] using this

theorem asciiLoop_content_length (cs : List Char) : ∀ pending,
    (((asciiLoop pending cs).map Part.content).flatten).length =
      pending.length + cs.length + cs.countP (fun c => isCRLF c) := by
  induction cs with
  | nil =>
    intro pending
    by_cases h0 : pending = [] <;> simp [asciiLoop, h0, Part.content]
  | cons c cs ih =>
    intro pending
    by_cases hc : isCRLF c = true
    · have h2 : (if c = '\r' then ['\\', 'r'] else ['\\', 'n']).length = 2 := by
        by_cases hr : c = '\r' <;> simp [hr]
      by_cases h0 : pending = [] <;>
        simp [asciiLoop, hc, h0, Part.content, ih, List.countP_cons, h2] <;> omega
    · have hc' : isCRLF c = false := by simpa using hc
      have := ih (c :: pending)
      simp [asciiLoop, hc', this, List.countP_cons]
      omega

theorem hle_ascii_or_utf8 (text : List Char) (format : DataFormat)
    (hf : format = DataFormat.ascii ∨ format = DataFormat.utf8) :
    highlightLineEndings text format =
      (if text = [] then HLResult.raw text else HLResult.parts (asciiParts text)) := by
  by_cases h0 : text = []
  · rcases hf with rfl | rfl <;>
      simp [highlightLineEndings, h0, asciiParts, asciiLoop]
  · have hne : asciiParts text ≠ [] := asciiLoop_ne_nil text [] (Or.inr h0)
    have hlen : 0 < (asciiParts text).length := List.length_pos.mpr hne
    rcases hf with rfl | rfl <;>
      simp [highlightLineEndings, h0, hlen]

theorem strTruthy_eq_true {o : Option (List Char)} (h : strTruthy o = true) :
    ∃ s, o = Option.some s ∧ s ≠ [] := by
  cases o with
  | none => simp [strTruthy] at h
  | some s =>
    refine ⟨s, rfl, ?_⟩
    simpa [strTruthy, List.isEmpty_iff] using h

theorem handleClick_cases (p : MessageItemProps) (w : World) :
    handleClick p w = w ∨
      (w.message.type = MsgType.sent ∧ boolTruthy p.isConnected = true ∧
        p.onResend = true ∧
        ∃ od cfg, w.message.originalData = Option.some od ∧ od ≠ [] ∧
          p.currentConfig = Option.some cfg ∧
          handleClick p w =
            { w with resendCalls := w.resendCalls ++ [(od, w.message.format, cfg)] }) := by
  by_cases hg : (canResend p w.message && strTruthy w.message.originalData && p.onResend &&
      p.currentConfig.isSome) = true
  · right
    have hg' := hg
    simp only [Bool.and_eq_true] at hg'
    obtain ⟨⟨⟨hcr, hstr⟩, hres⟩, hsome⟩ := hg'
    simp only [canResend, Bool.and_eq_true, decide_eq_true_eq] at hcr
    obtain ⟨⟨⟨⟨hsent, hconn⟩, -⟩, -⟩, -⟩ := hcr
    obtain ⟨od, hod, hodne⟩ := strTruthy_eq_true hstr
    obtain ⟨cfg, hcfg⟩ := Option.isSome_iff_exists.mp hsome
    refine ⟨hsent, hconn, hres, od, cfg, hod, hodne, hcfg, ?_⟩
    simp only [handleClick, hg, if_true]
    rw [hod, hcfg]
  · left
    simp [handleClick, hg]

/-- C1: for every input text in hex format, `highlightLineEndings`
splits the text into whitespace-separated tokens (the split chunks
alternate between whitespace-free tokens and whitespace runs, and
concatenating them restores the text), maps each chunk to a part that
keeps its text unchanged, highlights exactly the chunks whose uppercase
form is `0D` or `0A` (as CR and LF respectively), and leaves every
other chunk — whitespace runs included — plain; a token such as `F0D`
that merely contains `0D` is not highlighted. -/
theorem hex_highlight_correct :
    (∀ text, highlightLineEndings text DataFormat.hex =
        HLResult.parts ((splitKeepSep text).map hexPart) ∧
      (splitKeepSep text).flatten = text ∧
      splitShape false (splitKeepSep text) = true) ∧
    (∀ w, hexPart w = (if w.map Char.toUpper = ['0', 'D'] then Part.highlighted w true
        else if w.map Char.toUpper = ['0', 'A'] then Part.highlighted w false
        else Part.plain w) ∧ (hexPart w).content = w) ∧
    hexPart ['F', '0', 'D'] = Part.plain ['F', '0', 'D'] :=
  ⟨fun text => ⟨hle_hex text, splitKeepSep_join text, splitKeepSep_shape text⟩,
   fun w => ⟨hexPart_eq w, hexPart_content w⟩,
   by decide⟩

/-- C2: for ascii/utf8 format, `highlightLineEndings` emits a part list
in which every CR and LF character of the input is wrapped in a
highlighted span (its original character is recovered by
`Part.origChars`, and concatenating `origChars` over the parts restores
the input exactly, in order), no plain part contains a CR or LF, and
every highlighted span's text is the matching escape; for nonempty
input the result is exactly these parts. -/
theorem ascii_highlight_correct :
    ∀ text,
      ((asciiParts text).map Part.origChars).flatten = text ∧
      (asciiParts text).all goodAsciiPart = true ∧
      highlightLineEndings text DataFormat.ascii =
        (if text = [] then HLResult.raw text else HLResult.parts (asciiParts text)) ∧
      highlightLineEndings text DataFormat.utf8 =
        (if text = [] then HLResult.raw text else HLResult.parts (asciiParts text)) :=
  fun text =>
    ⟨by simpa using asciiLoop_origChars text [],
     asciiLoop_good text [] (by intro c hc; cases hc),
     hle_ascii_or_utf8 text DataFormat.ascii (Or.inl rfl),
     hle_ascii_or_utf8 text DataFormat.utf8 (Or.inr rfl)⟩

/-- C3: for the `binary`, `decimal` and `base64` formats,
`highlightLineEndings` returns the input text unchanged. -/
theorem other_formats_identity :
    ∀ text,
      highlightLineEndings text DataFormat.binary = HLResult.raw text ∧
      highlightLineEndings text DataFormat.decimal = HLResult.raw text ∧
      highlightLineEndings text DataFormat.base64 = HLResult.raw text :=
  fun _ => ⟨rfl, rfl, rfl⟩

/-- C4: `highlightLineEndings` is a deterministic total function of its
two arguments: equal inputs give equal outputs, and every input maps to
a defined result (a part list or the raw string). Purity and
state-freedom hold by construction of the embedding: the source
function reads nothing but its arguments. -/
theorem highlightLineEndings_pure_total :
    ∀ text format,
      highlightLineEndings text format = highlightLineEndings text format ∧
      ((∃ ps, highlightLineEndings text format = HLResult.parts ps) ∨
        ∃ s, highlightLineEndings text format = HLResult.raw s) := by
  intro text format
  refine ⟨rfl, ?_⟩
  cases h : highlightLineEndings text format with
  | parts ps => exact Or.inl ⟨ps, rfl⟩
  | raw s => exact Or.inr ⟨s, rfl⟩

/-- C5: when the clipboard write fails, `handleCopy` appends one
console-error entry and does nothing else: the handler still returns
normally (the error does not propagate), and the message, clipboard and
resend state are untouched. -/
theorem copy_failure_contained :
    ∀ displayText err w,
      handleCopy displayText (Except.error err) w =
        ({ w with log := w.log ++ [(("[MessageHistory] Failed to copy:").toList, err)] },
          Except.ok ()) ∧
      (handleCopy displayText (Except.error err) w).2 = Except.ok () ∧
      (handleCopy displayText (Except.error err) w).1.message = w.message ∧
      (handleCopy displayText (Except.error err) w).1.clipboard = w.clipboard ∧
      (handleCopy displayText (Except.error err) w).1.resendCalls = w.resendCalls :=
  fun _ _ _ => ⟨rfl, rfl, rfl, rfl, rfl⟩

/-- C6: the component handlers never mutate the message: after
`handleClick` (resend) and after `handleCopy` (either outcome of the
clipboard write) the `SerialMessage` — hence each of its fields `id`,
`type`, `data`, `timestamp`, `format`, `displayText`, `originalData` —
is identical to what it was before; rendering and highlighting are pure
functions of the message in this embedding. -/
theorem message_immutable :
    ∀ p w displayText outcome,
      (handleClick p w).message = w.message ∧
      (handleCopy displayText outcome w).1.message = w.message := by
  intro p w displayText outcome
  constructor
  · rcases handleClick_cases p w with h | ⟨-, -, -, od, cfg, -, -, -, h⟩ <;> rw [h]
  · cases outcome <;> rfl

/-- C7: `onResend` is invoked only for a sent message with a present
original input, an active connection and a current config, and it is
invoked with exactly that original string (paired with the message's
format and the current config); in every other situation the resend
call list is unchanged. -/
theorem resend_guarded :
    ∀ p w,
      (handleClick p w).resendCalls = w.resendCalls ∨
        (w.message.type = MsgType.sent ∧ boolTruthy p.isConnected = true ∧
          p.onResend = true ∧
          ∃ od cfg, w.message.originalData = Option.some od ∧
            p.currentConfig = Option.some cfg ∧
            (handleClick p w).resendCalls = w.resendCalls ++ [(od, w.message.format, cfg)]) := by
  intro p w
  rcases handleClick_cases p w with h | ⟨hsent, hconn, hres, od, cfg, hod, -, hcfg, h⟩
  · exact Or.inl (by rw [h])
  · exact Or.inr ⟨hsent, hconn, hres, od, cfg, hod, hcfg, by rw [h]⟩

/-- C8: the hex branch is content-preserving — concatenating the
displayed content of the emitted parts restores the input exactly —
while the ascii/utf8 branch is not whenever the input holds a CR or LF:
each highlighted span displays a two-character escape, so the
concatenated content is strictly longer than the input. -/
theorem hex_content_preserved_ascii_not :
    (∀ text, highlightLineEndings text DataFormat.hex =
        HLResult.parts ((splitKeepSep text).map hexPart) ∧
      (((splitKeepSep text).map hexPart).map Part.content).flatten = text) ∧
    (∀ text, (((asciiParts text).map Part.content).flatten).length =
      text.length + text.countP (fun c => isCRLF c)) ∧
    (∀ text ps, 0 < text.countP (fun c => isCRLF c) →
      highlightLineEndings text DataFormat.ascii = HLResult.parts ps →
      (ps.map Part.content).flatten ≠ text) := by
  refine ⟨fun text => ⟨hle_hex text, ?_⟩, fun text => ?_, fun text ps hcnt hps => ?_⟩
  · rw [List.map_map]
    have : (Part.content ∘ hexPart) = id := funext hexPart_content
    rw [this, List.map_id]
    exact splitKeepSep_join text
  · simpa using asciiLoop_content_length text []
  · have h0 : text ≠ [] := by
      intro h
      rw [h] at hcnt
      simp at hcnt
    have := hle_ascii_or_utf8 text DataFormat.ascii (Or.inl rfl)
    rw [if_neg h0] at this
    rw [this] at hps
    injection hps with hps'
    have hlen : ((ps.map Part.content).flatten).length =
        text.length + text.countP (fun c => isCRLF c) := by
      rw [← hps']
      simpa using asciiLoop_content_length text []
    intro heq
    rw [heq] at hlen
    omega

/-- C8 witness: on the one-character input CR, the hypotheses hold and
the ascii branch's content does not restore the input. -/
theorem hex_content_preserved_ascii_not_witness :
    0 < List.countP (fun c => isCRLF c) ['\r'] ∧
    highlightLineEndings ['\r'] DataFormat.ascii =
      HLResult.parts [Part.highlighted ['\\', 'r'] true] ∧
    (([Part.highlighted ['\\', 'r'] true].map Part.content).flatten ≠ ['\r']) :=
  ⟨by decide, by decide,
   hex_content_preserved_ascii_not.2.2 ['\r'] [Part.highlighted ['\\', 'r'] true]
     (by decide) (by decide)⟩

/-- C9: hex token matching is case-insensitive — highlighting of a
token depends only on its uppercased form, so `0d`, `0D`, `0a`, `0A`
are all highlighted, and the span keeps the token's original casing. -/
theorem hex_case_insensitive :
    hexPart ['0', 'd'] = Part.highlighted ['0', 'd'] true ∧
    hexPart ['0', 'D'] = Part.highlighted ['0', 'D'] true ∧
    hexPart ['0', 'a'] = Part.highlighted ['0', 'a'] false ∧
    hexPart ['0', 'A'] = Part.highlighted ['0', 'A'] false ∧
    (∀ text, highlightLineEndings text DataFormat.hex =
      HLResult.parts ((splitKeepSep text).map hexPart)) ∧
    ∀ w v, w.map Char.toUpper = v.map Char.toUpper →
      (hexPart w).isHighlighted = (hexPart v).isHighlighted :=
  ⟨by decide, by decide, by decide, by decide, hle_hex, hexPart_isHighlighted_congr⟩

/-- C9 witness: the lowercase token `0d` uppercases like `0D` and is
highlighted exactly as `0D` is. -/
theorem hex_case_insensitive_witness :
    ['0', 'd'].map Char.toUpper = ['0', 'D'].map Char.toUpper ∧
    (hexPart ['0', 'd']).isHighlighted = (hexPart ['0', 'D']).isHighlighted :=
  ⟨by decide, hex_case_insensitive.2.2.2.2.2 ['0', 'd'] ['0', 'D'] (by decide)⟩

/-- C10: a provided `displayFormat` overrides the message's format in
`formatToUse` (used for rendering and highlighting), while `handleClick`
ignores `displayFormat` entirely and any resend call it makes carries
the message's own format. -/
theorem display_format_override :
    (∀ f m, formatToUse (Option.some f) m = f) ∧
    (∀ m, formatToUse Option.none m = m.format) ∧
    (∀ p w d, handleClick { p with displayFormat := d } w = handleClick p w) ∧
    (∀ p w, (handleClick p w).resendCalls = w.resendCalls ∨
      ∃ od cfg, (handleClick p w).resendCalls = w.resendCalls ++ [(od, w.message.format, cfg)]) := by
  refine ⟨fun f m => rfl, fun m => rfl, fun p w d => rfl, fun p w => ?_⟩
  rcases handleClick_cases p w with h | ⟨-, -, -, od, cfg, -, -, -, h⟩
  · exact Or.inl (by rw [h])
  · exact Or.inr ⟨od, cfg, by rw [h]⟩

end SerialMonitor
